import Mathlib

/-!
# Verification of `master_rss.py`

A shallow embedding of the aggregation pipeline of `master_rss.py`
(the combined-feed news aggregator) together with proofs of the spec's
testable properties.

Modelling conventions:

* Timestamps are `Int` values: minutes on the UTC instant axis (minute
  granularity, which is the granularity produced by every date-parsing
  path in scope).  A timezone-aware `datetime` compares by instant, so
  `<`/`≤` on `Int` models `datetime` comparison.
* `pytz.timezone("Europe/Warsaw").localize` (with its default
  `is_dst=False` disambiguation) is modelled by `localizeWarsaw`, using
  the modern EU daylight-saving rule (DST between 03:00 local on the
  last Sunday of March and 02:00 local on the last Sunday of October).
* HTML pages are represented by the structured data the BeautifulSoup
  queries of each parser extract from them (hyperlinks with visible
  text, `li.news` items with their `div.date` / `div.info` fields);
  the parsers' own logic is translated line by line.
* A fetched page inside `collect_articles` is `Option (List Article)`:
  `none` when `fetch_page_html` returned `None` (or the falsy empty
  page, which the `if not html: continue` test also skips), otherwise
  the article list produced by the bound parser on the page's markup.
* `datetime.now(TZ_WARSAW)` is modelled by explicit parameters: the
  `now` argument of `collect_articles` / `parse_pap` is the value read
  at the corresponding call site, and `main` supplies the per-source
  values through a `clock : Nat → Int` (the value returned by the
  clock at the start of the i-th `collect_articles` invocation).
* Python's `list.sort(key=..., reverse=True)` is a stable descending
  sort; it is modelled by `List.insertionSort dateGe`, which is stable
  and sorts non-increasingly by `pub_date`, hence is extensionally the
  same function.
* `\d` of the regexes and of `strptime` is modelled as an ASCII digit,
  and Python whitespace as the ASCII whitespace characters.
-/

/-! ## Calendar arithmetic and the Europe/Warsaw time zone -/

/-- Gregorian leap-year test (as used by Python's `datetime`). -/
def isLeapYear (y : Nat) : Bool :=
  y % 4 == 0 && (y % 100 != 0 || y % 400 == 0)

/-- Number of days of month `m` (1-12) of year `y`. -/
def daysInMonth (y m : Nat) : Nat :=
  if m = 2 then (if isLeapYear y then 29 else 28)
  else if m = 4 ∨ m = 6 ∨ m = 9 ∨ m = 11 then 30
  else 31

/-- Days in year `y` before the first day of month `m`. -/
def daysBeforeMonth (y : Nat) : Nat → Nat
  | 0 => 0
  | 1 => 0
  | m + 2 => daysBeforeMonth y (m + 1) + daysInMonth y (m + 1)

/-- Proleptic-Gregorian ordinal of a date, as in Python's
`date.toordinal`: 0001-01-01 has ordinal 1. -/
def ordinalOf (y m d : Nat) : Nat :=
  365 * (y - 1) + (y - 1) / 4 - (y - 1) / 100 + (y - 1) / 400
    + daysBeforeMonth y m + d

/-- A naive civil date-time at minute granularity (what
`datetime.strptime(_, "%Y-%m-%d %H:%M")` produces). -/
structure Civil where
  year : Nat
  month : Nat
  day : Nat
  hour : Nat
  minute : Nat
deriving Repr, DecidableEq

/-- Minutes from 0001-01-01T00:00 (plus one day, an irrelevant fixed
shift) to a civil date-time, on the civil axis. -/
def civilMinutes (c : Civil) : Nat :=
  ordinalOf c.year c.month c.day * 1440 + c.hour * 60 + c.minute

/-- Day of week of a date; Monday is 0, Sunday is 6 (as
`date.weekday`). -/
def weekdayOf (y m d : Nat) : Nat :=
  (ordinalOf y m d - 1) % 7

/-- Day of month of the last Sunday of month `m` of year `y`. -/
def lastSundayDay (y m : Nat) : Nat :=
  daysInMonth y m - ((weekdayOf y m (daysInMonth y m) + 1) % 7)

/-- Civil minute at which Warsaw DST starts in year `y`
(03:00 local on the last Sunday of March). -/
def warsawDstStart (y : Nat) : Nat :=
  civilMinutes ⟨y, 3, lastSundayDay y 3, 3, 0⟩

/-- Civil minute at which Warsaw DST ends in year `y`
(02:00 local on the last Sunday of October). -/
def warsawDstEnd (y : Nat) : Nat :=
  civilMinutes ⟨y, 10, lastSundayDay y 10, 2, 0⟩

/-- Whether `pytz`'s `localize` (default `is_dst=False`) attributes the
CEST offset to a naive Warsaw civil time. -/
def warsawIsDst (c : Civil) : Bool :=
  decide (warsawDstStart c.year ≤ civilMinutes c ∧
          civilMinutes c < warsawDstEnd c.year)

/-- UTC offset, in minutes, attributed to a naive Warsaw civil time. -/
def warsawOffset (c : Civil) : Int :=
  if warsawIsDst c then 120 else 60

/-- `TZ_WARSAW.localize(dt_naive)` viewed on the instant axis: the UTC
instant (in minutes) of a naive Warsaw civil time. -/
def localizeWarsaw (c : Civil) : Int :=
  (civilMinutes c : Int) - warsawOffset c

/-- Civil date-time from a minute count on the civil axis (inverse of
`civilMinutes`, standard era-based Gregorian conversion). -/
def civilFromMinutes (n : Nat) : Civil :=
  let g := n / 1440 + 305
  let era := g / 146097
  let doe := g % 146097
  let yoe := (doe - doe / 1460 + doe / 36524 - doe / 146096) / 365
  let y0 := yoe + era * 400
  let doy := doe - (365 * yoe + yoe / 4 - yoe / 100)
  let mp := (5 * doy + 2) / 153
  let d := doy - (153 * mp + 2) / 5 + 1
  let m := if mp < 10 then mp + 3 else mp - 9
  ⟨if m ≤ 2 then y0 + 1 else y0, m, d, n % 1440 / 60, n % 60⟩

/-- Whether the UTC instant `t` falls in Warsaw DST. -/
def instantIsDstWarsaw (t : Int) : Bool :=
  let c := civilFromMinutes (t + 60).toNat
  decide ((warsawDstStart c.year : Int) - 120 ≤ t ∧
          t < (warsawDstEnd c.year : Int) - 60)

/-- Two-digit zero-padded decimal. -/
def pad2 (n : Nat) : String :=
  if n < 10 then "0" ++ toString n else toString n

/-- Four-digit zero-padded decimal. -/
def pad4 (n : Nat) : String :=
  if n < 10 then "000" ++ toString n
  else if n < 100 then "00" ++ toString n
  else if n < 1000 then "0" ++ toString n
  else toString n

/-- `datetime.isoformat()` of a Warsaw-aware instant (seconds are zero
at minute granularity). -/
def isoformatWarsaw (t : Int) : String :=
  let dst := instantIsDstWarsaw t
  let off : Int := if dst then 120 else 60
  let c := civilFromMinutes (t + off).toNat
  pad4 c.year ++ "-" ++ pad2 c.month ++ "-" ++ pad2 c.day ++ "T" ++
    pad2 c.hour ++ ":" ++ pad2 c.minute ++ ":00" ++
    (if dst then "+02:00" else "+01:00")

/-! ## String helpers: Python whitespace, `str.split`, substrings -/

/-- The characters matched by Python's `\s` (and split on by
`str.split()`), restricted to ASCII. -/
def isPySpace (c : Char) : Bool :=
  c == ' ' || c == '\t' || c == '\n' || c == '\r' ||
  c == '\x0b' || c == '\x0c'

/-- Worker for `str.split()`: splits at whitespace runs, discarding
empty fields; `acc` is the current word, reversed. -/
def splitWsGo : List Char → List Char → List (List Char)
  | [], acc => if acc.isEmpty then [] else [acc.reverse]
  | c :: rest, acc =>
    if isPySpace c then
      if acc.isEmpty then splitWsGo rest []
      else acc.reverse :: splitWsGo rest []
    else splitWsGo rest (c :: acc)

/-- `" ".join(s.split())`: collapse whitespace runs to single spaces
and trim both ends.  Every text field of the program goes through
this. -/
def normalizeWs (s : String) : String :=
  " ".intercalate ((splitWsGo s.data []).map String.mk)

/-- Auxiliary for substring search. -/
def listHasSub (sub : List Char) : List Char → Bool
  | [] => sub.isEmpty
  | c :: rest => sub.isPrefixOf (c :: rest) || listHasSub sub rest

/-- Python's `sub in s` for strings. -/
def hasSubstr (s sub : String) : Bool :=
  listHasSub sub.data s.data

/-! ## A model of `urllib.parse.urljoin`

Only the reference cases are modelled (absolute, protocol-relative,
root-relative and simple relative references; dot-segment
normalization is omitted).  No claim depends on the internals of URL
resolution: hrefs serve only as identity keys downstream. -/

/-- Splits `scheme://rest` into the `scheme://` part and the rest. -/
def splitScheme : List Char → Option (List Char × List Char)
  | ':' :: '/' :: '/' :: rest => some ([':', '/', '/'], rest)
  | c :: rest =>
    match splitScheme rest with
    | some (p, r) => some (c :: p, r)
    | none => none
  | [] => none

/-- The `scheme://host` part of a URL. -/
def schemeHost (base : String) : String :=
  match splitScheme base.data with
  | some (p, r) => String.mk (p ++ r.takeWhile (fun c => c != '/'))
  | none => base

/-- The `scheme:` part of a URL. -/
def schemeOf (base : String) : String :=
  match splitScheme base.data with
  | some (p, _) => String.mk (p.take (p.length - 2))
  | none => ""

/-- The URL up to and including the final `/` of its path. -/
def dirOf (base : String) : String :=
  match splitScheme base.data with
  | some (p, r) =>
    let host := r.takeWhile (fun c => c != '/')
    let path := r.drop host.length
    if path.contains '/' then
      String.mk (p ++ host ++ (path.reverse.dropWhile (fun c => c != '/')).reverse)
    else
      String.mk (p ++ host) ++ "/"
  | none => base

/-- `urljoin(base, href)` on the reference cases. -/
def urljoin (base href : String) : String :=
  if href.startsWith "http://" || href.startsWith "https://" then href
  else if href.startsWith "//" then schemeOf base ++ href
  else if href.startsWith "/" then schemeHost base ++ href
  else if href = "" then base
  else dirOf base ++ href

/-! ## `datetime.strptime(s, "%Y-%m-%d %H:%M")`

`_strptime` compiles the format to a regex (`%Y` is four digits; `%m`,
`%d`, `%H`, `%M` are one or two digits constrained to their value
ranges; a literal space matches a whitespace run), requires the match
to consume the whole string, and then `datetime(...)` validates the
day against the month and the year against `MINYEAR`.  Because every
numeric field is followed by a non-digit delimiter (or the end of the
string), the regex's local backtracking reduces to: prefer the
two-digit read when its value is admissible, else read one digit. -/

/-- Decimal value of an ASCII digit. -/
def digitVal? (c : Char) : Option Nat :=
  if c.isDigit then some (c.toNat - 48) else none

/-- Reads exactly four digits (`%Y`). -/
def read4 : List Char → Option (Nat × List Char)
  | a :: b :: c :: d :: rest => do
    let va ← digitVal? a
    let vb ← digitVal? b
    let vc ← digitVal? c
    let vd ← digitVal? d
    pure (va * 1000 + vb * 100 + vc * 10 + vd, rest)
  | _ => none

/-- Reads a one-or-two-digit field: two digits when `ok2` admits their
value, else one digit when `ok1` admits it. -/
def read2or1 (ok2 ok1 : Nat → Bool) : List Char → Option (Nat × List Char)
  | [] => none
  | [a] =>
    match digitVal? a with
    | some va => if ok1 va then some (va, []) else none
    | none => none
  | a :: b :: rest =>
    match digitVal? a, digitVal? b with
    | some va, some vb =>
      if ok2 (va * 10 + vb) then some (va * 10 + vb, rest)
      else if ok1 va then some (va, b :: rest) else none
    | some va, none => if ok1 va then some (va, b :: rest) else none
    | none, _ => none

/-- Consumes one literal character. -/
def litChar (c : Char) : List Char → Option (List Char)
  | x :: rest => if x = c then some rest else none
  | [] => none

/-- Consumes a nonempty whitespace run (a literal space in a
`strptime` format). -/
def wsRun1 : List Char → Option (List Char)
  | x :: rest =>
    if isPySpace x then some (rest.dropWhile isPySpace) else none
  | [] => none

/-- `datetime.strptime(s, "%Y-%m-%d %H:%M")`, localized to the minute:
`none` models `ValueError`. -/
def strptimeYmdHM (s : String) : Option Civil := do
  let (y, r1) ← read4 s.data
  let r2 ← litChar '-' r1
  let (m, r3) ← read2or1 (fun v => decide (1 ≤ v ∧ v ≤ 12))
    (fun v => decide (1 ≤ v)) r2
  let r4 ← litChar '-' r3
  let (d, r5) ← read2or1 (fun v => decide (1 ≤ v ∧ v ≤ 31))
    (fun v => decide (1 ≤ v)) r4
  let r6 ← wsRun1 r5
  let (h, r7) ← read2or1 (fun v => decide (v ≤ 23)) (fun _ => true) r6
  let r8 ← litChar ':' r7
  let (mi, r9) ← read2or1 (fun v => decide (v ≤ 59)) (fun _ => true) r8
  if r9 = [] ∧ 1 ≤ y ∧ d ≤ daysInMonth y m then
    pure ⟨y, m, d, h, mi⟩
  else none

/-! ## The Article value and the sort order -/

/-- One extracted article, as built by the parsers (the dict with keys
`title`, `link`, `pub_date`, `teaser`, `source`). -/
structure Article where
  title : String
  link : String
  pub_date : Int
  teaser : String
  source : String
deriving Repr, DecidableEq

/-- The "goes before" relation of
`sort(key=lambda x: x["pub_date"], reverse=True)`: `a` may precede `b`
exactly when `a.pub_date ≥ b.pub_date`.  A stable sort by this
relation is what Python's stable descending sort computes. -/
def dateGe (a b : Article) : Prop :=
  b.pub_date ≤ a.pub_date

instance : DecidableRel dateGe :=
  fun a b => inferInstanceAs (Decidable (b.pub_date ≤ a.pub_date))

instance : IsTotal Article dateGe :=
  ⟨fun a b => Int.le_total b.pub_date a.pub_date⟩

instance : IsTrans Article dateGe :=
  ⟨fun _ _ _ hab hbc => le_trans hbc hab⟩

/-- `list.sort(key=lambda x: x["pub_date"], reverse=True)`: the stable
non-increasing sort by `pub_date`. -/
def sortByDateDesc (l : List Article) : List Article :=
  List.insertionSort dateGe l

/-! ## `fetch_page_html` -/

/-- Outcome of the one `requests.get` attempt: a response with its
final status and body text, or a raised transport exception
(connection error, timeout, ...). -/
inductive TransportResult where
  | success (status : Nat) (body : String)
  | failure
deriving Repr, DecidableEq

/-- `fetch_page_html`: returns the body text, or `None` when the
attempt raised — `raise_for_status` raises exactly for 4xx/5xx
statuses.  (The `time.sleep` pacing has no observable effect on the
data flow.) -/
def fetch_page_html (r : TransportResult) : Option String :=
  match r with
  | .failure => none
  | .success status body =>
    if 400 ≤ status ∧ status < 600 then none else some body

/-- One page as seen by the pagination loop of `collect_articles`:
`none` when `if not html: continue` skips it (fetch failure or empty
body), else the candidates the bound parser extracted. -/
abbrev Page := Option (List Article)

/-- The page produced from one transport outcome by
`fetch_page_html` plus the bound parser. -/
def pageOf (parse : String → List Article) (r : TransportResult) : Page :=
  match fetch_page_html r with
  | none => none
  | some html => if html = "" then none else some (parse html)

/-! ## `parse_bankier_gielda` (Variant B) -/

/-- One hyperlink of the page's `main` element (an `a[href]` with its
visible text as `get_text(" ", strip=True)` yields it). -/
structure Hyperlink where
  text : String
  href : String
deriving Repr, DecidableEq

/-- Shape test for the first capture group of
`^(\d{4}-\d{2}-\d{2} \d{2}:\d{2})\s+(.+)$`. -/
def isDateShape : List Char → Bool
  | [y1, y2, y3, y4, s1, m1, m2, s2, d1, d2, sp, h1, h2, c1, n1, n2] =>
    y1.isDigit && y2.isDigit && y3.isDigit && y4.isDigit &&
    s1 == '-' && m1.isDigit && m2.isDigit && s2 == '-' &&
    d1.isDigit && d2.isDigit && sp == ' ' && h1.isDigit && h2.isDigit &&
    c1 == ':' && n1.isDigit && n2.isDigit
  | _ => false

/-- `re.match(r"^(\d{4}-\d{2}-\d{2} \d{2}:\d{2})\s+(.+)$", s)`:
the two capture groups on success.  `$` may also match just before a
final newline, and `.` matches everything but a newline; when
everything after the whitespace run is whitespace, greedy
backtracking gives the last of those characters to `(.+)`. -/
def gieldaMatch (s : String) : Option (String × String) :=
  let cs := s.data
  let stamp := cs.take 16
  if isDateShape stamp then
    let rest := cs.drop 16
    let base := if rest.getLast? == some '\n' then rest.dropLast else rest
    let ws := base.takeWhile isPySpace
    let tail := base.dropWhile isPySpace
    if tail.isEmpty then
      if 2 ≤ ws.length && ws.getLast? != some '\n' then
        some (String.mk stamp, String.mk (ws.drop (ws.length - 1)))
      else none
    else
      if ws.isEmpty || tail.contains '\n' then none
      else some (String.mk stamp, String.mk tail)
  else none

/-- `parse_bankier_gielda`, given the hyperlinks of the page's `main`
element (or of the whole page when no `main` exists): normalize each
link's text, keep those matching the date-time-title pattern whose
stamp `strptime`s, and localize the stamp to Warsaw. -/
def parse_bankier_gielda (links : List Hyperlink) (base_url : String) :
    List Article :=
  links.filterMap fun a =>
    let text := normalizeWs a.text
    match gieldaMatch text with
    | none => none
    | some (dtStr, title) =>
      match strptimeYmdHM dtStr with
      | none => none
      | some c =>
        some { title := title, link := urljoin base_url a.href,
               pub_date := localizeWarsaw c, teaser := "",
               source := "Bankier.pl" }

/-! ## `parse_pap` (Variant C) -/

/-- The first `a[href]` inside an item's `div.info`, with its visible
text. -/
structure PapAnchor where
  href : String
  text : String
deriving Repr, DecidableEq

/-- An item's `div.info`: its first anchor (if any) and the text of
its `p.field_lead` (if present). -/
structure PapInfo where
  anchor : Option PapAnchor
  lead : Option String
deriving Repr, DecidableEq

/-- One `li.news` item: the text of its `div.date` (if that div
exists) and its `div.info` (if it exists). -/
structure PapItem where
  date : Option String
  info : Option PapInfo
deriving Repr, DecidableEq

/-- The item's timestamp: the parsed `div.date` text localized to
Warsaw, falling back to `now` when the div is missing or its text
fails `strptime`. -/
def papDate (now : Int) (d : Option String) : Int :=
  match d with
  | none => now
  | some dateText =>
    match strptimeYmdHM dateText with
    | some c => localizeWarsaw c
    | none => now

/-- The capped teaser from an optional `p.field_lead` text. -/
def papTeaser (lead : Option String) : String :=
  match lead with
  | none => ""
  | some p => (normalizeWs p).take 200

/-- The body of `parse_pap`'s per-item loop: `none` models
`continue`. -/
def parse_pap_item (now : Int) (base_url : String) (li : PapItem) :
    Option Article :=
  let pub_dt := papDate now li.date
  match li.info with
  | none => none
  | some info =>
    match info.anchor with
    | none => none
    | some a =>
      if hasSubstr a.href "/wiadomosci/" = false then none
      else
        let link := urljoin base_url a.href
        let title := normalizeWs a.text
        if title = "" ∨ title.length < 10 then none
        else
          some { title := title, link := link, pub_date := pub_dt,
                 teaser := papTeaser info.lead, source := "PAP Biznes" }

/-- `parse_pap`, given the page's `li.news` items; `now` is the
`datetime.now(TZ_WARSAW)` read at the top of this call. -/
def parse_pap (now : Int) (lis : List PapItem) (base_url : String) :
    List Article :=
  lis.filterMap (parse_pap_item now base_url)

/-! ## `collect_articles` (Paginator + Aggregator) -/

/-- `HOURS_BACK = 24`. -/
def HOURS_BACK : Nat := 24

/-- `cutoff = now - timedelta(hours=HOURS_BACK)`. -/
def cutoffOf (now : Int) : Int :=
  now - 60 * HOURS_BACK

/-- The body of the per-article loop over one page's candidates:
skip seen links, skip articles strictly older than the cutoff, record
kept links.  Returns the kept articles of the page and the updated
seen set. -/
def dedupPage (cutoff : Int) :
    List Article → List String → List Article × List String
  | [], seen => ([], seen)
  | a :: rest, seen =>
    if a.link ∈ seen then dedupPage cutoff rest seen
    else if a.pub_date < cutoff then dedupPage cutoff rest seen
    else
      let p := dedupPage cutoff rest (a.link :: seen)
      (a :: p.1, p.2)

/-- The page loop of `collect_articles`: failed pages are skipped
(`if not html: continue`), the seen set threads through the whole
source. -/
def collectPages (cutoff : Int) : List Page → List String → List Article
  | [], _ => []
  | none :: ps, seen => collectPages cutoff ps seen
  | some arts :: ps, seen =>
    (dedupPage cutoff arts seen).1 ++
      collectPages cutoff ps (dedupPage cutoff arts seen).2

/-- All candidates a page list offers, in encounter order. -/
def pageCandidates (pages : List Page) : List Article :=
  (pages.filterMap id).flatten

/-- `collect_articles` for one source, given the `now` read at its
start and the source's fetched pages in pagination order. -/
def collect_articles (now : Int) (pages : List Page) : List Article :=
  sortByDateDesc (collectPages (cutoffOf now) pages [])

/-! ## `main` (CrossSourceMerger + FeedSerializer) -/

/-- The cross-source loop of `main`: keep each article whose link was
not seen before, in source-declaration order. -/
def dedupByLink : List Article → List String → List Article
  | [], _ => []
  | a :: rest, seen =>
    if a.link ∈ seen then dedupByLink rest seen
    else a :: dedupByLink rest (a.link :: seen)

/-- The combined article list of `main` before the final sort:
each source is collected with the `now` the clock supplied for its
`collect_articles` call, then merged in order with cross-source
link deduplication. -/
def mainKept (clock : Nat → Int) (sourceFetches : List (List Page)) :
    List Article :=
  dedupByLink
    ((sourceFetches.enum.map fun p => collect_articles (clock p.1) p.2).flatten)
    []

/-- The article list `main` serializes: the merged list, stably
sorted by `pub_date` descending. -/
def mainArticles (clock : Nat → Int) (sourceFetches : List (List Page)) :
    List Article :=
  sortByDateDesc (mainKept clock sourceFetches)

/-! ## `generate_combined_json` -/

/-- A JSON document. -/
inductive Json where
  | str (s : String)
  | num (n : Int)
  | arr (xs : List Json)
  | obj (fields : List (String × Json))

/-- The item object serialized for one article in the combined
feed. -/
def combinedItemJson (a : Article) : Json :=
  .obj [("id", .str a.link), ("url", .str a.link),
        ("title", .str a.title), ("content_html", .str a.teaser),
        ("date_published", .str (isoformatWarsaw a.pub_date)),
        ("source", .str a.source)]

/-- `generate_combined_json` as a JSON value (the function serializes
this object with `ensure_ascii=False, indent=2`). -/
def generate_combined_json (all_articles : List Article) : Json :=
  .obj [("version", .str "https://jsonfeed.org/version/1"),
        ("title", .str "Wiadomości Finansowe - Bankier.pl + PAP Biznes"),
        ("description",
          .str ("Połączone wiadomości z wielu źródeł (ostatnie " ++
                toString HOURS_BACK ++ "h)")),
        ("home_page_url", .str "https://www.bankier.pl"),
        ("items", .arr (all_articles.map combinedItemJson))]

/-! ## Per-source mode (modelled from the spec)

`src/` holds only the combined-feed script; the per-source mode the
spec describes (its RSS/XML serializer and its per-source file
outputs) is code of the repository not present under `src/`, so it is
modelled here from the spec's words (§4.6, §6). -/

/-- Modelled from the spec: the static per-source configuration of the
per-source mode — display name, base URL, description, language and
the configured output file names (spec §3 SourceConfig, §6). -/
structure SourceMeta where
  name : String
  base_url : String
  description : String
  language : String
  rss_filename : String
  json_filename : String
deriving Repr, DecidableEq

/-- Modelled from the spec: one RSS `item` — id/link/title/
description(optional)/publication-date (spec §4.6). -/
structure RssItem where
  guid : String
  link : String
  title : String
  description : String
  pub_date : Int
deriving Repr, DecidableEq

/-- Modelled from the spec: an RSS/XML feed document — channel
title/link/description/language, a last-build-date, and the items
(spec §4.6). -/
structure RssChannel where
  title : String
  link : String
  description : String
  language : String
  last_build_date : Option Int
  items : List RssItem
deriving Repr, DecidableEq

/-- Modelled from the spec: the RSS/XML serializer of the per-source
mode — channel metadata from the source's configuration, a
last-build-date taken from the newest article (absent if the list is
empty), and one item per article with id=link (spec §4.6). -/
def generate_rss (m : SourceMeta) (arts : List Article) : RssChannel :=
  { title := m.name, link := m.base_url, description := m.description,
    language := m.language,
    last_build_date := (arts.map Article.pub_date).max?,
    items := arts.map fun a =>
      { guid := a.link, link := a.link, title := a.title,
        description := a.teaser, pub_date := a.pub_date } }

/-- Modelled from the spec: the per-source JSON feed document (as the
combined one, without the combined-mode-only source label; spec
§4.6). -/
def generate_source_json (m : SourceMeta) (arts : List Article) : Json :=
  .obj [("version", .str "https://jsonfeed.org/version/1"),
        ("title", .str m.name),
        ("description", .str m.description),
        ("home_page_url", .str m.base_url),
        ("items", .arr (arts.map fun a =>
          .obj [("id", .str a.link), ("url", .str a.link),
                ("title", .str a.title), ("content_html", .str a.teaser),
                ("date_published", .str (isoformatWarsaw a.pub_date))]))]

/-- A document written by the per-source mode. -/
inductive OutDoc where
  | rss (channel : RssChannel)
  | json (j : Json)

/-- Modelled from the spec: the outputs of one per-source run — for
each selected source, one RSS/XML document and one JSON document,
under the source's configured file names (spec §6). -/
def run_per_source (selected : List (SourceMeta × List Article)) :
    List (String × OutDoc) :=
  (selected.map fun p =>
    [(p.1.rss_filename, OutDoc.rss (generate_rss p.1 p.2)),
     (p.1.json_filename, OutDoc.json (generate_source_json p.1 p.2))]).flatten

/-! ## Concrete inputs used by counterexamples and witnesses -/

/-- A candidate article with timestamp 1500 (source one of the
re-read-clock counterexample). -/
def artX : Article :=
  { title := "x", link := "https://a/x", pub_date := 1500,
    teaser := "", source := "S1" }

/-- A second candidate with the same timestamp but another link
(source two of the re-read-clock counterexample). -/
def artY : Article :=
  { title := "y", link := "https://a/y", pub_date := 1500,
    teaser := "", source := "S2" }

/-- A clock that has advanced by 1200 minutes between the two
`collect_articles` calls of `main`. -/
def advancingClock : Nat → Int :=
  fun i => 2880 + (i : Int) * 1200

/-- The two single-page sources fed to `main` in the re-read-clock
counterexample. -/
def cexFetches : List (List Page) :=
  [[some [artX]], [some [artY]]]

/-- A per-source configuration used to exercise the per-source-mode
serializer. -/
def metaW : SourceMeta :=
  { name := "Bankier.pl", base_url := "https://www.bankier.pl",
    description := "Wiadomości", language := "pl",
    rss_filename := "bankier.xml", json_filename := "bankier.json" }

/-- The seen-link set after processing a list of pages (the state the
loop of `collect_articles` threads between pages). -/
def seenAfter (cutoff : Int) : List Page → List String → List String
  | [], seen => seen
  | none :: ps, seen => seenAfter cutoff ps seen
  | some arts :: ps, seen => seenAfter cutoff ps (dedupPage cutoff arts seen).2

/-! ## Lemmas about the per-page dedup/window loop -/

theorem dedupPage_mem {cutoff : Int} {arts : List Article}
    {seen : List String} {a : Article}
    (h : a ∈ (dedupPage cutoff arts seen).1) :
    a ∈ arts ∧ cutoff ≤ a.pub_date ∧ a.link ∉ seen := by
  induction arts generalizing seen with
  | nil => simp [dedupPage] at h
  | cons b rest ih =>
    by_cases h1 : b.link ∈ seen
    · simp only [dedupPage, if_pos h1] at h
      obtain ⟨hm, hd, hs⟩ := ih h
      exact ⟨List.mem_cons_of_mem _ hm, hd, hs⟩
    · by_cases h2 : b.pub_date < cutoff
      · simp only [dedupPage, if_neg h1, if_pos h2] at h
        obtain ⟨hm, hd, hs⟩ := ih h
        exact ⟨List.mem_cons_of_mem _ hm, hd, hs⟩
      · simp only [dedupPage, if_neg h1, if_neg h2, List.mem_cons] at h
        rcases h with rfl | hm
        · exact ⟨List.mem_cons_self _ _, not_lt.mp h2, h1⟩
        · obtain ⟨hm2, hd, hs⟩ := ih hm
          exact ⟨List.mem_cons_of_mem _ hm2, hd,
            fun hx => hs (List.mem_cons_of_mem _ hx)⟩

theorem dedupPage_seen_sub {cutoff : Int} {arts : List Article}
    {seen : List String} {s : String}
    (h : s ∈ (dedupPage cutoff arts seen).2) :
    s ∈ seen ∨ s ∈ arts.map Article.link := by
  induction arts generalizing seen with
  | nil => exact Or.inl h
  | cons b rest ih =>
    by_cases h1 : b.link ∈ seen
    · simp only [dedupPage, if_pos h1] at h
      rcases ih h with hx | hx
      · exact Or.inl hx
      · exact Or.inr (by simpa using Or.inr hx)
    · by_cases h2 : b.pub_date < cutoff
      · simp only [dedupPage, if_neg h1, if_pos h2] at h
        rcases ih h with hx | hx
        · exact Or.inl hx
        · exact Or.inr (by simpa using Or.inr hx)
      · simp only [dedupPage, if_neg h1, if_neg h2] at h
        rcases ih h with hx | hx
        · rcases List.mem_cons.mp hx with rfl | hx2
          · exact Or.inr (by simp)
          · exact Or.inl hx2
        · exact Or.inr (by simpa using Or.inr hx)

theorem dedupPage_sub_seen {cutoff : Int} {arts : List Article}
    {seen : List String} {s : String} (h : s ∈ seen) :
    s ∈ (dedupPage cutoff arts seen).2 := by
  induction arts generalizing seen with
  | nil => exact h
  | cons b rest ih =>
    by_cases h1 : b.link ∈ seen
    · simpa only [dedupPage, if_pos h1] using ih h
    · by_cases h2 : b.pub_date < cutoff
      · simpa only [dedupPage, if_neg h1, if_pos h2] using ih h
      · simpa only [dedupPage, if_neg h1, if_neg h2] using
          ih (List.mem_cons_of_mem _ h)

theorem dedupPage_fst_link_mem {cutoff : Int} {arts : List Article}
    {seen : List String} {a : Article}
    (h : a ∈ (dedupPage cutoff arts seen).1) :
    a.link ∈ (dedupPage cutoff arts seen).2 := by
  induction arts generalizing seen with
  | nil => simp [dedupPage] at h
  | cons b rest ih =>
    by_cases h1 : b.link ∈ seen
    · simp only [dedupPage, if_pos h1] at h ⊢
      exact ih h
    · by_cases h2 : b.pub_date < cutoff
      · simp only [dedupPage, if_neg h1, if_pos h2] at h ⊢
        exact ih h
      · simp only [dedupPage, if_neg h1, if_neg h2, List.mem_cons] at h ⊢
        rcases h with rfl | hm
        · exact dedupPage_sub_seen (List.mem_cons_self _ _)
        · exact ih hm

theorem dedupPage_fst_nodup {cutoff : Int} {arts : List Article}
    {seen : List String} :
    ((dedupPage cutoff arts seen).1.map Article.link).Nodup := by
  induction arts generalizing seen with
  | nil => simp [dedupPage]
  | cons b rest ih =>
    by_cases h1 : b.link ∈ seen
    · simpa only [dedupPage, if_pos h1] using ih
    · by_cases h2 : b.pub_date < cutoff
      · simpa only [dedupPage, if_neg h1, if_pos h2] using ih
      · simp only [dedupPage, if_neg h1, if_neg h2, List.map_cons,
          List.nodup_cons]
        refine ⟨?_, ih⟩
        intro hx
        rcases List.mem_map.mp hx with ⟨c, hc, hlink⟩
        exact (dedupPage_mem hc).2.2 (hlink ▸ List.mem_cons_self _ _)

/-! ## Lemmas about the page loop -/

theorem pageCandidates_nil : pageCandidates [] = [] := rfl

theorem pageCandidates_none_cons {ps : List Page} :
    pageCandidates (none :: ps) = pageCandidates ps := rfl

theorem pageCandidates_some_cons {arts : List Article} {ps : List Page} :
    pageCandidates (some arts :: ps) = arts ++ pageCandidates ps := rfl

theorem collectPages_mem {cutoff : Int} {ps : List Page}
    {seen : List String} {a : Article}
    (h : a ∈ collectPages cutoff ps seen) :
    a ∈ pageCandidates ps ∧ cutoff ≤ a.pub_date ∧ a.link ∉ seen := by
  induction ps generalizing seen with
  | nil => simp [collectPages] at h
  | cons p ps ih =>
    cases p with
    | none =>
      simp only [collectPages] at h
      obtain ⟨hm, hd, hs⟩ := ih h
      exact ⟨by simpa [pageCandidates_none_cons] using hm, hd, hs⟩
    | some arts =>
      simp only [collectPages, List.mem_append] at h
      rcases h with h | h
      · obtain ⟨hm, hd, hs⟩ := dedupPage_mem h
        exact ⟨by simp [pageCandidates_some_cons, hm], hd, hs⟩
      · obtain ⟨hm, hd, hs⟩ := ih h
        refine ⟨by simp [pageCandidates_some_cons, hm], hd, fun hx => ?_⟩
        exact hs (dedupPage_sub_seen hx)

theorem collectPages_nodup {cutoff : Int} {ps : List Page}
    {seen : List String} :
    ((collectPages cutoff ps seen).map Article.link).Nodup := by
  induction ps generalizing seen with
  | nil => simp [collectPages]
  | cons p ps ih =>
    cases p with
    | none => simpa only [collectPages] using ih
    | some arts =>
      simp only [collectPages, List.map_append, List.nodup_append]
      refine ⟨dedupPage_fst_nodup, ih, ?_⟩
      intro x hx hy
      rcases List.mem_map.mp hx with ⟨b, hb, hbx⟩
      rcases List.mem_map.mp hy with ⟨c, hc, hcx⟩
      have h1 : b.link ∈ (dedupPage cutoff arts seen).2 :=
        dedupPage_fst_link_mem hb
      have h2 : c.link ∉ (dedupPage cutoff arts seen).2 :=
        (collectPages_mem hc).2.2
      exact h2 ((hcx.trans hbx.symm) ▸ h1)

theorem collectPages_skip_none {cutoff : Int} :
    ∀ (xs ys : List Page) (seen : List String),
      collectPages cutoff (xs ++ none :: ys) seen =
        collectPages cutoff (xs ++ ys) seen := by
  intro xs
  induction xs with
  | nil => intro ys seen; rfl
  | cons p xs ih =>
    intro ys seen
    cases p with
    | none => simpa only [List.cons_append, collectPages] using ih ys seen
    | some arts =>
      simp only [List.cons_append, collectPages, List.append_eq]
      rw [ih]

theorem collectPages_append {cutoff : Int} :
    ∀ (xs ys : List Page) (seen : List String),
      collectPages cutoff (xs ++ ys) seen =
        collectPages cutoff xs seen ++
          collectPages cutoff ys (seenAfter cutoff xs seen) := by
  intro xs
  induction xs with
  | nil => intro ys seen; rfl
  | cons p xs ih =>
    intro ys seen
    cases p with
    | none => simpa only [List.cons_append, collectPages, seenAfter] using ih ys seen
    | some arts =>
      simp only [List.cons_append, collectPages, seenAfter, List.append_eq]
      rw [ih, List.append_assoc]

theorem seenAfter_sub {cutoff : Int} :
    ∀ (xs : List Page) (seen : List String) (s : String),
      s ∈ seenAfter cutoff xs seen →
        s ∈ seen ∨ s ∈ (pageCandidates xs).map Article.link := by
  intro xs
  induction xs with
  | nil => intro seen s h; exact Or.inl h
  | cons p xs ih =>
    intro seen s h
    cases p with
    | none =>
      simp only [seenAfter] at h
      rcases ih seen s h with hx | hx
      · exact Or.inl hx
      · exact Or.inr (by simpa [pageCandidates_none_cons] using hx)
    | some arts =>
      simp only [seenAfter] at h
      rcases ih _ s h with hx | hx
      · rcases dedupPage_seen_sub hx with hy | hy
        · exact Or.inl hy
        · exact Or.inr (by simp [pageCandidates_some_cons, hy])
      · exact Or.inr (by simp [pageCandidates_some_cons]; right; simpa using hx)

theorem collectPages_keep {cutoff : Int} {a : Article}
    {xs ys : List Page} {seen : List String}
    (hd : cutoff ≤ a.pub_date) (hs : a.link ∉ seen)
    (hx : a.link ∉ (pageCandidates xs).map Article.link) :
    a ∈ collectPages cutoff (xs ++ some [a] :: ys) seen := by
  rw [collectPages_append]
  refine List.mem_append_right _ ?_
  have hs2 : a.link ∉ seenAfter cutoff xs seen := by
    intro h
    rcases seenAfter_sub xs seen a.link h with h | h
    · exact hs h
    · exact hx h
  simp only [collectPages, dedupPage, if_neg hs2, if_neg (not_lt.mpr hd)]
  exact List.mem_append_left _ (List.mem_cons_self _ _)

/-! ## Lemmas about the cross-source merge and the parsers -/

theorem dedupByLink_not_seen {l : List Article} {seen : List String}
    {a : Article} (h : a ∈ dedupByLink l seen) : a.link ∉ seen := by
  induction l generalizing seen with
  | nil => simp [dedupByLink] at h
  | cons b rest ih =>
    by_cases h1 : b.link ∈ seen
    · simp only [dedupByLink, if_pos h1] at h
      exact ih h
    · simp only [dedupByLink, if_neg h1, List.mem_cons] at h
      rcases h with rfl | hm
      · exact h1
      · exact fun hx => ih hm (List.mem_cons_of_mem _ hx)

theorem dedupByLink_nodup {l : List Article} {seen : List String} :
    ((dedupByLink l seen).map Article.link).Nodup := by
  induction l generalizing seen with
  | nil => simp [dedupByLink]
  | cons b rest ih =>
    by_cases h1 : b.link ∈ seen
    · simpa only [dedupByLink, if_pos h1] using ih
    · simp only [dedupByLink, if_neg h1, List.map_cons, List.nodup_cons]
      refine ⟨?_, ih⟩
      intro hx
      rcases List.mem_map.mp hx with ⟨c, hc, hlink⟩
      exact dedupByLink_not_seen hc (hlink ▸ List.mem_cons_self _ _)

theorem parse_pap_item_pub_date {now : Int} {base_url : String}
    {li : PapItem} {a : Article}
    (h : parse_pap_item now base_url li = some a) :
    a.pub_date = papDate now li.date := by
  rcases li with ⟨d, info⟩
  cases info with
  | none => simp [parse_pap_item] at h
  | some i =>
    rcases i with ⟨an, lead⟩
    cases an with
    | none => simp [parse_pap_item] at h
    | some anchor =>
      simp only [parse_pap_item] at h
      by_cases h1 : hasSubstr anchor.href "/wiadomosci/" = false
      · simp [if_pos h1] at h
      · rw [if_neg h1] at h
        by_cases h2 : normalizeWs anchor.text = "" ∨
            (normalizeWs anchor.text).length < 10
        · simp [if_pos h2] at h
        · rw [if_neg h2] at h
          cases h
          rfl

theorem collectPages_replicate_none {cutoff : Int} :
    ∀ (n : Nat) (seen : List String),
      collectPages cutoff (List.replicate n none) seen = [] := by
  intro n
  induction n with
  | zero => intro seen; rfl
  | succ k ih => intro seen; simpa only [List.replicate, collectPages] using ih seen

/-! ## The claims -/

/-- Claim C1: link is the unique identity of an article — within one
source's `collect_articles` output no two articles share a link, and
after the cross-source merge of `main` no two items of the combined
output share a link; a duplicate is dropped, never kept twice. -/
theorem collect_and_main_dedup_by_link :
    (∀ (now : Int) (pages : List Page),
      ((collect_articles now pages).map Article.link).Nodup) ∧
    (∀ (clock : Nat → Int) (sourceFetches : List (List Page)),
      ((mainArticles clock sourceFetches).map Article.link).Nodup) := by
  constructor
  · intro now pages
    have hp : List.Perm (collect_articles now pages)
        (collectPages (cutoffOf now) pages []) :=
      List.perm_insertionSort dateGe _
    exact (hp.map Article.link).nodup_iff.mpr collectPages_nodup
  · intro clock fetches
    have hp : List.Perm (mainArticles clock fetches)
        (mainKept clock fetches) :=
      List.perm_insertionSort dateGe _
    exact (hp.map Article.link).nodup_iff.mpr dedupByLink_nodup

/-- Claim C2: every article in the output of `collect_articles` has
`pub_date` at or after the cutoff `now - HOURS_BACK` hours (with
`HOURS_BACK = 24`); candidates strictly older are excluded. -/
theorem collect_articles_window {now : Int} {pages : List Page}
    {a : Article} (h : a ∈ collect_articles now pages) :
    cutoffOf now ≤ a.pub_date := by
  have hm : a ∈ collectPages (cutoffOf now) pages [] :=
    (List.mem_insertionSort dateGe).mp h
  exact (collectPages_mem hm).2.1

/-- Witness for C2 at a concrete run. -/
theorem collect_articles_window_witness :
    artX ∈ collect_articles 2880 [some [artX]] ∧
    cutoffOf 2880 ≤ artX.pub_date :=
  have hm : artX ∈ collect_articles 2880 [some [artX]] := by decide
  ⟨hm, collect_articles_window hm⟩

/-- Claim C10: the 24-hour window boundary is inclusive — a candidate
whose `pub_date` equals the cutoff exactly is kept, because the filter
discards only strictly older timestamps. -/
theorem window_boundary_inclusive {now : Int} {a : Article}
    (h : a.pub_date = cutoffOf now) :
    collect_articles now [some [a]] = [a] := by
  unfold collect_articles sortByDateDesc
  have hlt : ¬ a.pub_date < cutoffOf now := by
    rw [h]
    exact lt_irrefl _
  have hcp : collectPages (cutoffOf now) [some [a]] [] = [a] := by
    simp only [collectPages, dedupPage, if_neg (List.not_mem_nil a.link),
      if_neg hlt]
    rfl
  rw [hcp]
  rfl

/-- Witness for C10: an article exactly 24 hours old is kept. -/
theorem window_boundary_inclusive_witness :
    ({ title := "b", link := "https://a/b", pub_date := 1440,
       teaser := "", source := "S" } : Article).pub_date = cutoffOf 2880 ∧
    collect_articles 2880
      [some [{ title := "b", link := "https://a/b", pub_date := 1440,
               teaser := "", source := "S" }]] =
      [{ title := "b", link := "https://a/b", pub_date := 1440,
         teaser := "", source := "S" }] :=
  ⟨by decide, window_boundary_inclusive (by decide)⟩

/-- Claim C3: the per-source output of `collect_articles` and the
combined output of `main` are sorted non-increasingly by `pub_date`
(every pair, hence every adjacent pair, is ordered), and each is the
stable sort of its kept candidates: a permutation that preserves the
relative order of any correctly-ordered pair of kept candidates. -/
theorem outputs_sorted_and_stable :
    (∀ (now : Int) (pages : List Page),
      List.Sorted dateGe (collect_articles now pages) ∧
      List.Perm (collect_articles now pages)
        (collectPages (cutoffOf now) pages []) ∧
      (∀ a b : Article, dateGe a b →
        List.Sublist [a, b] (collectPages (cutoffOf now) pages []) →
        List.Sublist [a, b] (collect_articles now pages))) ∧
    (∀ (clock : Nat → Int) (fetches : List (List Page)),
      List.Sorted dateGe (mainArticles clock fetches) ∧
      List.Perm (mainArticles clock fetches) (mainKept clock fetches) ∧
      (∀ a b : Article, dateGe a b →
        List.Sublist [a, b] (mainKept clock fetches) →
        List.Sublist [a, b] (mainArticles clock fetches))) := by
  constructor
  · intro now pages
    exact ⟨List.sorted_insertionSort dateGe _,
      List.perm_insertionSort dateGe _,
      fun a b hab hs => List.pair_sublist_insertionSort hab hs⟩
  · intro clock fetches
    exact ⟨List.sorted_insertionSort dateGe _,
      List.perm_insertionSort dateGe _,
      fun a b hab hs => List.pair_sublist_insertionSort hab hs⟩

/-- Witness for C3: two kept candidates with equal timestamps stay in
encounter order in the sorted output, which is sorted. -/
theorem outputs_sorted_and_stable_witness :
    List.Sublist [artX, artY] (collect_articles 2880 [some [artX, artY]]) ∧
    List.Sorted dateGe (collect_articles 2880 [some [artX, artY]]) := by
  have h := outputs_sorted_and_stable.1 2880 [some [artX, artY]]
  refine ⟨h.2.2 artX artY (by decide) ?_, h.1⟩
  have e : collectPages (cutoffOf 2880) [some [artX, artY]] [] =
      [artX, artY] := by decide
  rw [e]

/-- Claim C5 counterexample: `datetime.now` is read again inside each
`collect_articles` call (and inside `parse_pap`), not once per run; a
clock that advances between the two per-source collections makes two
candidates with the same timestamp receive different retention
decisions in one run, so the whole run does not compare against a
single cutoff value. -/
theorem now_reread_per_source_cex :
    mainArticles advancingClock cexFetches ≠
      mainArticles (fun _ => advancingClock 0) cexFetches ∧
    collect_articles (advancingClock 0) [some [artY]] = [artY] ∧
    collect_articles (advancingClock 1) [some [artY]] = [] := by
  refine ⟨by decide, by decide, by decide⟩

/-- Claim C5 amended: the `now` of the window filter is read once per
`collect_articles` invocation (per source), before any page of that
source, and is not re-read per page: within one source, whether a
fresh-linked candidate is retained depends only on its `pub_date` and
that single per-source cutoff, not on which page it came from.
Different sources of one run may use different cutoffs. -/
theorem window_cutoff_fixed_per_source {now : Int} {a : Article}
    {xs ys : List Page}
    (hx : a.link ∉ (pageCandidates xs).map Article.link) :
    a ∈ collect_articles now (xs ++ some [a] :: ys) ↔
      cutoffOf now ≤ a.pub_date := by
  constructor
  · intro h
    exact (collectPages_mem ((List.mem_insertionSort dateGe).mp h)).2.1
  · intro hd
    exact (List.mem_insertionSort dateGe).mpr
      (collectPages_keep hd (List.not_mem_nil _) hx)

/-- Witness for C5's amended statement: a fresh-linked candidate on
the second page is kept exactly when inside the window. -/
theorem window_cutoff_fixed_per_source_witness :
    artY.link ∉ (pageCandidates [some [artX]]).map Article.link ∧
    artY ∈ collect_articles 2880 ([some [artX]] ++ some [artY] :: []) :=
  have hx : artY.link ∉ (pageCandidates [some [artX]]).map Article.link :=
    by decide
  ⟨hx, (window_cutoff_fixed_per_source hx).mpr (by decide)⟩

/-- Claim C4 counterexample: `raise_for_status` raises only for
4xx/5xx, so a non-2xx response — here a 304 — is returned as a value,
not as a failure, and its page can contribute articles. -/
theorem fetch_non2xx_not_error_cex :
    fetch_page_html (TransportResult.success 304 "<html>cache</html>") =
      some "<html>cache</html>" ∧
    ¬ (200 ≤ 304 ∧ 304 < 300) ∧
    pageOf (fun _ => [artX]) (TransportResult.success 304 "<html>cache</html>") =
      some [artX] := by
  refine ⟨by decide, by decide, by decide⟩

/-- Claim C4 amended: a page fetch that fails (transport error,
timeout, or 4xx/5xx status) contributes exactly zero articles for that
page and never raises past the pagination loop — `fetch_page_html`
returns `None` instead of raising, `collect_articles` skips the page
and continues with the remaining pages, an all-failed source yields
the empty list, and the run still writes a (possibly empty) valid
output document. -/
theorem fetch_failure_contributes_nothing :
    fetch_page_html TransportResult.failure = none ∧
    (∀ (status : Nat) (body : String), 400 ≤ status → status < 600 →
      fetch_page_html (TransportResult.success status body) = none) ∧
    (∀ (parse : String → List Article) (r : TransportResult),
      fetch_page_html r = none → pageOf parse r = none) ∧
    (∀ (now : Int) (xs ys : List Page),
      collect_articles now (xs ++ none :: ys) =
        collect_articles now (xs ++ ys)) ∧
    (∀ (now : Int) (n : Nat),
      collect_articles now (List.replicate n none) = []) ∧
    generate_combined_json [] =
      Json.obj
        [("version", Json.str "https://jsonfeed.org/version/1"),
         ("title", Json.str "Wiadomości Finansowe - Bankier.pl + PAP Biznes"),
         ("description",
           Json.str "Połączone wiadomości z wielu źródeł (ostatnie 24h)"),
         ("home_page_url", Json.str "https://www.bankier.pl"),
         ("items", Json.arr [])] := by
  refine ⟨rfl, ?_, ?_, ?_, ?_, ?_⟩
  · intro status body h1 h2
    simp [fetch_page_html, if_pos (And.intro h1 h2)]
  · intro parse r h
    unfold pageOf
    rw [h]
  · intro now xs ys
    unfold collect_articles sortByDateDesc
    rw [collectPages_skip_none]
  · intro now n
    unfold collect_articles sortByDateDesc
    rw [collectPages_replicate_none]
    rfl
  · rfl

/-- Witness for C4's amended statement at concrete failures. -/
theorem fetch_failure_contributes_nothing_witness :
    fetch_page_html (TransportResult.success 404 "not found") = none ∧
    pageOf (fun _ => [artX]) TransportResult.failure = none ∧
    collect_articles 2880 ([none] ++ none :: [some [artX]]) =
      collect_articles 2880 ([none] ++ [some [artX]]) :=
  ⟨fetch_failure_contributes_nothing.2.1 404 "not found"
      (by decide) (by decide),
   fetch_failure_contributes_nothing.2.2.1 (fun _ => [artX])
      TransportResult.failure rfl,
   fetch_failure_contributes_nothing.2.2.2.1 2880 [none] [some [artX]]⟩

/-- Claim C6: Variant B on a hyperlink whose visible text is
`"2024-03-01 09:15  Spółka X podała wyniki"` yields exactly one
article titled `"Spółka X podała wyniki"` with `publishedAt` equal to
the Warsaw-localized civil time 2024-03-01 09:15; a link whose text
does not match the date-time-title pattern yields no article. -/
theorem gielda_scenario :
    (∀ (href base_url : String),
      parse_bankier_gielda
        [⟨"2024-03-01 09:15  Spółka X podała wyniki", href⟩] base_url =
        [{ title := "Spółka X podała wyniki",
           link := urljoin base_url href,
           pub_date := localizeWarsaw ⟨2024, 3, 1, 9, 15⟩,
           teaser := "", source := "Bankier.pl" }]) ∧
    (∀ (l : Hyperlink) (rest : List Hyperlink) (base_url : String),
      gieldaMatch (normalizeWs l.text) = none →
      parse_bankier_gielda (l :: rest) base_url =
        parse_bankier_gielda rest base_url) := by
  constructor
  · intro href base_url
    rfl
  · intro l rest base_url h
    simp only [parse_bankier_gielda, List.filterMap_cons, h]

/-- Witness for C6 at a concrete non-matching link and a concrete
matching one. -/
theorem gielda_scenario_witness :
    parse_bankier_gielda [⟨"Nowe wiadomości", "/x"⟩] "https://www.bankier.pl"
      = [] ∧
    parse_bankier_gielda
      [⟨"2024-03-01 09:15  Spółka X podała wyniki", "/wiadomosc/1"⟩]
      "https://www.bankier.pl" =
      [{ title := "Spółka X podała wyniki",
         link := urljoin "https://www.bankier.pl" "/wiadomosc/1",
         pub_date := localizeWarsaw ⟨2024, 3, 1, 9, 15⟩,
         teaser := "", source := "Bankier.pl" }] :=
  ⟨(gielda_scenario.2 ⟨"Nowe wiadomości", "/x"⟩ [] "https://www.bankier.pl"
      (by decide)).trans rfl,
   gielda_scenario.1 "/wiadomosc/1" "https://www.bankier.pl"⟩

/-- Claim C7: Variant C drops an item whose title text is `"Krótko"`
(below the 10-character floor) and drops items whose link lacks
`"/wiadomosci/"`, while an item with a 10-or-more-character title and
a `"/wiadomosci/"` link is kept as an article. -/
theorem pap_title_and_link_filter :
    (∀ (now : Int) (base_url : String) (d lead : Option String)
        (href : String),
      hasSubstr href "/wiadomosci/" = true →
      parse_pap now [⟨d, some ⟨some ⟨href, "Krótko"⟩, lead⟩⟩] base_url = []) ∧
    (∀ (now : Int) (base_url : String) (d lead : Option String)
        (href text : String),
      hasSubstr href "/wiadomosci/" = false →
      parse_pap now [⟨d, some ⟨some ⟨href, text⟩, lead⟩⟩] base_url = []) ∧
    (∀ (now : Int) (base_url : String) (d lead : Option String)
        (href text : String),
      hasSubstr href "/wiadomosci/" = true →
      10 ≤ (normalizeWs text).length →
      parse_pap now [⟨d, some ⟨some ⟨href, text⟩, lead⟩⟩] base_url =
        [{ title := normalizeWs text, link := urljoin base_url href,
           pub_date := papDate now d, teaser := papTeaser lead,
           source := "PAP Biznes" }]) := by
  refine ⟨?_, ?_, ?_⟩
  · intro now base_url d lead href h
    have hi : parse_pap_item now base_url
        ⟨d, some ⟨some ⟨href, "Krótko"⟩, lead⟩⟩ = none := by
      simp only [parse_pap_item, h]
      have ht : normalizeWs "Krótko" = "" ∨
          (normalizeWs "Krótko").length < 10 := by decide
      simp [ht]
    simp [parse_pap, List.filterMap_cons, hi]
  · intro now base_url d lead href text h
    have hi : parse_pap_item now base_url
        ⟨d, some ⟨some ⟨href, text⟩, lead⟩⟩ = none := by
      simp [parse_pap_item, h]
    simp [parse_pap, List.filterMap_cons, hi]
  · intro now base_url d lead href text h hlen
    have h0 : ¬ (normalizeWs text = "" ∨ (normalizeWs text).length < 10) := by
      rintro (e | hl)
      · rw [e] at hlen
        simp at hlen
      · omega
    have hi : parse_pap_item now base_url
        ⟨d, some ⟨some ⟨href, text⟩, lead⟩⟩ =
        some { title := normalizeWs text, link := urljoin base_url href,
               pub_date := papDate now d, teaser := papTeaser lead,
               source := "PAP Biznes" } := by
      simp only [parse_pap_item, h]
      simp [h0]
    simp [parse_pap, List.filterMap_cons, hi]

/-- Witness for C7 at concrete items. -/
theorem pap_title_and_link_filter_witness :
    parse_pap 5000 [⟨some "2026-02-09 22:14",
        some ⟨some ⟨"/wiadomosci/krotko", "Krótko"⟩, none⟩⟩]
      "https://biznes.pap.pl" = [] ∧
    parse_pap 5000 [⟨none, some ⟨some ⟨"/kategoria/x", "Tytuł dostatecznie długi"⟩,
        none⟩⟩] "https://biznes.pap.pl" = [] ∧
    parse_pap 5000 [⟨none, some ⟨some ⟨"/wiadomosci/abc",
        "Tytuł dostatecznie długi"⟩, none⟩⟩] "https://biznes.pap.pl" =
      [{ title := normalizeWs "Tytuł dostatecznie długi",
         link := urljoin "https://biznes.pap.pl" "/wiadomosci/abc",
         pub_date := papDate 5000 none, teaser := papTeaser none,
         source := "PAP Biznes" }] :=
  ⟨pap_title_and_link_filter.1 5000 "https://biznes.pap.pl"
      (some "2026-02-09 22:14") none "/wiadomosci/krotko" (by decide),
   pap_title_and_link_filter.2.1 5000 "https://biznes.pap.pl" none none
      "/kategoria/x" "Tytuł dostatecznie długi" (by decide),
   pap_title_and_link_filter.2.2 5000 "https://biznes.pap.pl" none none
      "/wiadomosci/abc" "Tytuł dostatecznie długi" (by decide) (by decide)⟩

/-- Claim C8: in Variant C a missing `div.date` or a date text that
fails the fixed numeric format is never propagated as an error — the
item's timestamp falls back to the `now` of this `parse_pap` call, and
extraction of the item and of the rest of the page continues. -/
theorem pap_date_fallback :
    ∀ (now : Int) (base_url : String) (li : PapItem) (rest : List PapItem),
      (li.date = none ∨ ∀ s, li.date = some s → strptimeYmdHM s = none) →
      papDate now li.date = now ∧
      parse_pap now (li :: rest) base_url =
        (parse_pap_item now base_url li).toList ++
          parse_pap now rest base_url ∧
      ∀ a ∈ (parse_pap_item now base_url li).toList, a.pub_date = now := by
  intro now base_url li rest h
  have hp : papDate now li.date = now := by
    rcases h with h | h
    · rw [h]
      rfl
    · cases hd : li.date with
      | none => rfl
      | some s => simp [papDate, h s hd]
  refine ⟨hp, ?_, ?_⟩
  · cases hi : parse_pap_item now base_url li <;>
      simp [parse_pap, List.filterMap_cons, hi]
  · intro a ha
    cases hi : parse_pap_item now base_url li with
    | none => rw [hi] at ha; simp at ha
    | some b =>
      rw [hi] at ha
      simp only [Option.toList_some, List.mem_singleton] at ha
      subst ha
      rw [parse_pap_item_pub_date hi]
      exact hp

/-- Witness for C8: an unparseable date text falls back to `now`. -/
theorem pap_date_fallback_witness :
    papDate 7777 (some "wczoraj") = 7777 ∧
    parse_pap 7777 [⟨some "wczoraj", some ⟨some ⟨"/wiadomosci/abc",
        "Tytuł dostatecznie długi"⟩, none⟩⟩] "https://biznes.pap.pl" =
      (parse_pap_item 7777 "https://biznes.pap.pl"
        ⟨some "wczoraj", some ⟨some ⟨"/wiadomosci/abc",
          "Tytuł dostatecznie długi"⟩, none⟩⟩).toList ++
        parse_pap 7777 [] "https://biznes.pap.pl" :=
  have h := pap_date_fallback 7777 "https://biznes.pap.pl"
    ⟨some "wczoraj", some ⟨some ⟨"/wiadomosci/abc",
      "Tytuł dostatecznie długi"⟩, none⟩⟩ []
    (Or.inr (by intro s hs; cases hs; decide))
  ⟨h.1, h.2.1⟩

/-- Claim C9: in per-source mode, each selected source gets one
RSS/XML feed document (channel title/link/description/language, a
last-build-date taken from the newest article and absent when the
list is empty, one item per article) in addition to a JSON document,
under the source's configured file names.  The per-source mode is
modelled from the spec (it is not part of `src/`). -/
theorem per_source_outputs_spec :
    (∀ selected : List (SourceMeta × List Article),
      (run_per_source selected).length = 2 * selected.length) ∧
    (∀ (selected : List (SourceMeta × List Article)) (m : SourceMeta)
        (arts : List Article),
      (m, arts) ∈ selected →
      (m.rss_filename, OutDoc.rss (generate_rss m arts)) ∈
        run_per_source selected ∧
      (m.json_filename, OutDoc.json (generate_source_json m arts)) ∈
        run_per_source selected) ∧
    (∀ (m : SourceMeta) (arts : List Article),
      (generate_rss m arts).title = m.name ∧
      (generate_rss m arts).link = m.base_url ∧
      (generate_rss m arts).description = m.description ∧
      (generate_rss m arts).language = m.language ∧
      (generate_rss m arts).items.length = arts.length ∧
      ((generate_rss m arts).last_build_date = none ↔ arts = []) ∧
      (∀ t : Int, (generate_rss m arts).last_build_date = some t →
        (∃ a ∈ arts, a.pub_date = t) ∧ ∀ b ∈ arts, b.pub_date ≤ t)) := by
  refine ⟨?_, ?_, ?_⟩
  · intro selected
    induction selected with
    | nil => rfl
    | cons p rest ih =>
      have e : run_per_source (p :: rest) =
          [(p.1.rss_filename, OutDoc.rss (generate_rss p.1 p.2)),
           (p.1.json_filename, OutDoc.json (generate_source_json p.1 p.2))] ++
            run_per_source rest := rfl
      rw [e, List.length_append, ih]
      simp only [List.length_cons, List.length_nil]
      omega
  · intro selected m arts hp
    have h1 : [(m.rss_filename, OutDoc.rss (generate_rss m arts)),
          (m.json_filename, OutDoc.json (generate_source_json m arts))] ∈
        (selected.map fun p =>
          [(p.1.rss_filename, OutDoc.rss (generate_rss p.1 p.2)),
           (p.1.json_filename, OutDoc.json (generate_source_json p.1 p.2))]) :=
      List.mem_map_of_mem _ hp
    exact ⟨List.mem_flatten_of_mem h1 (List.mem_cons_self _ _),
      List.mem_flatten_of_mem h1
        (List.mem_cons_of_mem _ (List.mem_cons_self _ _))⟩
  · intro m arts
    refine ⟨rfl, rfl, rfl, rfl, by simp [generate_rss], ?_, ?_⟩
    · show (arts.map Article.pub_date).max? = none ↔ arts = []
      rw [List.max?_eq_none_iff, List.map_eq_nil_iff]
    · intro t ht
      replace ht : (arts.map Article.pub_date).max? = some t := ht
      constructor
      · have hmem : t ∈ arts.map Article.pub_date :=
          List.max?_mem (fun a b => max_choice a b) ht
        obtain ⟨a, ha, hae⟩ := List.mem_map.mp hmem
        exact ⟨a, ha, hae⟩
      · intro b hb
        have hle : ∀ x ∈ arts.map Article.pub_date, x ≤ t :=
          (List.max?_le_iff (fun a b c => max_le_iff) ht).mp le_rfl
        exact hle b.pub_date (List.mem_map_of_mem _ hb)

/-- Witness for C9 at a concrete one-source selection. -/
theorem per_source_outputs_spec_witness :
    (metaW.rss_filename, OutDoc.rss (generate_rss metaW [artX])) ∈
      run_per_source [(metaW, [artX])] ∧
    ((∃ a ∈ [artX], a.pub_date = 1500) ∧ ∀ b ∈ [artX], b.pub_date ≤ 1500) :=
  ⟨(per_source_outputs_spec.2.1 [(metaW, [artX])] metaW [artX]
      (List.mem_singleton_self _)).1,
   (per_source_outputs_spec.2.2 metaW [artX]).2.2.2.2.2.2 1500 (by decide)⟩
